import Mathlib

/-!
Verification of the agent-society protocol core.

This file gives a shallow embedding of the repository's protocol layer —
the social trust engine, replaceable-record resolution, event builders and
parsers, the encrypted request/response correlator, peer discovery, and the
bootstrap sequencer — and proves or refutes the specification claims about
them.  TypeScript `bigint` values are modelled as `Int` (with `Int.tdiv`
for BigInt's truncating division), JS numbers holding unix-second
timestamps as `Nat`, `Set<string>`/arrays as `List String`, `Map` as an
association list, and `null`/thrown errors as `Option`/`Except`.
-/

namespace AgentSociety

/-- A Nostr event as handled by the repository: author pubkey, kind,
unix-seconds timestamp, tag list, content.  The signature and id fields are
never inspected by the verified code paths and are not modelled. -/
structure NostrEvent where
  pubkey : String
  kind : Nat
  created_at : Nat
  tags : List (List String)
  content : String
deriving DecidableEq, Repr

/-- Kind 10032 (`src/src/events/kinds.ts`). -/
def ILP_PEER_INFO_KIND : Nat := 10032

/-- Kind 10047 (`src/src/events/kinds.ts`). -/
def SPSP_INFO_KIND : Nat := 10047

/-- Kind 3, NIP-02 (`src/src/events/kinds.ts`). -/
def FOLLOW_LIST_KIND : Nat := 3

/-- Kind 23194 (`src/src/events/kinds.ts`). -/
def SPSP_REQUEST_KIND : Nat := 23194

/-- Kind 23195 (`src/src/events/kinds.ts`). -/
def SPSP_RESPONSE_KIND : Nat := 23195

/-! ## Social trust engine (`src/src/trust/social-trust-manager.ts`) -/

/-- `TrustConfig` from `social-trust-manager.ts`; the TS fields are
`bigint`, modelled as `Int`. -/
structure TrustConfig where
  baseCreditForFollowed : Int
  mutualFollowerBonus : Int
  maxMutualBonus : Int
  baseCreditForUnfollowed : Int
  maxCreditLimit : Int
deriving DecidableEq, Repr

/-- `DEFAULT_CONFIG` from `social-trust-manager.ts`. -/
def DEFAULT_CONFIG : TrustConfig :=
  { baseCreditForFollowed := 1000
    mutualFollowerBonus := 100
    maxMutualBonus := 500
    baseCreditForUnfollowed := 0
    maxCreditLimit := 10000 }

/-- `TrustScore` from `social-trust-manager.ts`. -/
structure TrustScore where
  pubkey : String
  isFollowed : Bool
  followsUs : Bool
  mutualFollowers : Nat
  creditLimit : Int
  score : Int
deriving DecidableEq, Repr

/-- `SocialTrustManager.countMutualFollowers`: iterate the peer's follow
set and count members of our own follow set. -/
def countMutualFollowers (myFollows peerFollows : List String) : Nat :=
  (peerFollows.filter (fun pk => myFollows.contains pk)).length

/-- `SocialTrustManager.computeTrust`, with the network/caching phase
resolved: `myFollows`/`myFollowers` are the manager's loaded sets and
`peerFollows` is the result of `getFollows(peerPubkey)`.  The arithmetic
mirrors the source line by line; `Int.tdiv` is BigInt division. -/
def computeTrust (config : TrustConfig) (myFollows myFollowers : List String)
    (peerPubkey : String) (peerFollows : List String) : TrustScore :=
  let isFollowed := myFollows.contains peerPubkey
  let followsUs := myFollowers.contains peerPubkey
  let mutualFollowers := countMutualFollowers myFollows peerFollows
  let creditLimit0 :=
    if isFollowed then config.baseCreditForFollowed else config.baseCreditForUnfollowed
  let mutualBonus := (mutualFollowers : Int) * config.mutualFollowerBonus
  let cappedBonus :=
    if mutualBonus > config.maxMutualBonus then config.maxMutualBonus else mutualBonus
  let creditLimit1 := creditLimit0 + cappedBonus
  let creditLimit2 :=
    if followsUs && isFollowed then creditLimit1 + Int.tdiv config.baseCreditForFollowed 2
    else creditLimit1
  let creditLimit :=
    if creditLimit2 > config.maxCreditLimit then config.maxCreditLimit else creditLimit2
  let score := Int.tdiv (creditLimit * 100) config.maxCreditLimit
  { pubkey := peerPubkey, isFollowed, followsUs, mutualFollowers, creditLimit, score }

/-- The credit-limit formula exactly as the specification words it
(spec §4.3 steps 4–6), for comparison with `computeTrust`. -/
def specCreditLimit (config : TrustConfig) (isFollowed followsBack : Bool) (m : Nat) : Int :=
  let base := if isFollowed then config.baseCreditForFollowed else config.baseCreditForUnfollowed
  let bonus := min ((m : Int) * config.mutualFollowerBonus) config.maxMutualBonus
  min (base + bonus + (if followsBack && isFollowed then Int.tdiv base 2 else 0))
    config.maxCreditLimit

/-- `SocialTrustManager.getTrustCalculator`: the synchronous calculator
closure, with the instance state (`myFollows`, `myFollowers`, the
follow-graph cache entry for `pubkey`) passed explicitly. -/
def trustCalculator (config : TrustConfig) (myFollows myFollowers : List String)
    (cachedPeerFollows : Option (List String)) (pubkey : String) (isFollowed : Bool) : Int :=
  if !isFollowed then config.baseCreditForUnfollowed
  else
    let credit0 := config.baseCreditForFollowed
    let credit1 :=
      if myFollowers.contains pubkey then credit0 + Int.tdiv config.baseCreditForFollowed 2
      else credit0
    let credit2 :=
      match cachedPeerFollows with
      | some peerFollows =>
          let bonus :=
            (countMutualFollowers myFollows peerFollows : Int) * config.mutualFollowerBonus
          credit1 + (if bonus > config.maxMutualBonus then config.maxMutualBonus else bonus)
      | none => credit1
    if credit2 > config.maxCreditLimit then config.maxCreditLimit else credit2

/-- The "cap at x" pattern of the source (`a > b ? b : a`) is `min`. -/
theorem clamp_eq_min (a b : Int) : (if a > b then b else a) = min a b := by
  rcases lt_or_ge b a with h | h
  · simp [if_pos h, min_eq_right h.le]
  · simp [if_neg (not_lt.mpr h), min_eq_left h]

/-- The spec's credit-limit expression is non-negative whenever the
configuration values are. -/
theorem specCreditLimit_nonneg (config : TrustConfig) (f b : Bool) (m : Nat)
    (h0 : 0 ≤ config.baseCreditForFollowed) (h1 : 0 ≤ config.baseCreditForUnfollowed)
    (h2 : 0 ≤ config.mutualFollowerBonus) (h3 : 0 ≤ config.maxMutualBonus)
    (h4 : 0 < config.maxCreditLimit) : 0 ≤ specCreditLimit config f b m := by
  have hbonus : 0 ≤ min ((m : Int) * config.mutualFollowerBonus) config.maxMutualBonus :=
    le_min (mul_nonneg (Int.natCast_nonneg _) h2) h3
  have htd : 0 ≤ Int.tdiv config.baseCreditForFollowed 2 :=
    Int.tdiv_nonneg h0 (by norm_num)
  cases f <;> cases b <;> simp [specCreditLimit] <;>
    first
    | exact le_min (by linarith) h4.le
    | exact ⟨by linarith, h4.le⟩

/-- Concrete inputs of the spec's worked example: our follow set contains
the subject and ten others, the subject follows exactly those ten others,
nobody follows us back. -/
def exampleMyFollows : List String :=
  ["p", "m0", "m1", "m2", "m3", "m4", "m5", "m6", "m7", "m8", "m9"]

/-- The subject's follow set in the worked example. -/
def examplePeerFollows : List String :=
  ["m0", "m1", "m2", "m3", "m4", "m5", "m6", "m7", "m8", "m9"]

/-- C1: `computeTrust` realizes exactly the spec's credit formula —
base (by follow status) plus the capped mutual-follower bonus plus the
mutual-follow half-base bonus, clamped to `maxCreditLimit` — and, for
non-negative configuration values, its score is the floor of
`creditLimit * 100 / maxCreditLimit`; all arithmetic is exact `Int`
(BigInt) arithmetic.  On the spec's worked example (default config,
followed subject, 10 mutual followers, no reverse-follow) the credit
limit is 1500 and the score 15. -/
theorem computeTrust_matches_spec (config : TrustConfig)
    (myFollows myFollowers peerFollows : List String) (pk : String)
    (h0 : 0 ≤ config.baseCreditForFollowed) (h1 : 0 ≤ config.baseCreditForUnfollowed)
    (h2 : 0 ≤ config.mutualFollowerBonus) (h3 : 0 ≤ config.maxMutualBonus)
    (h4 : 0 < config.maxCreditLimit) :
    (computeTrust config myFollows myFollowers pk peerFollows).creditLimit
        = specCreditLimit config (myFollows.contains pk) (myFollowers.contains pk)
            (countMutualFollowers myFollows peerFollows)
      ∧ (computeTrust config myFollows myFollowers pk peerFollows).score
        = Int.fdiv
            ((computeTrust config myFollows myFollowers pk peerFollows).creditLimit * 100)
            config.maxCreditLimit
      ∧ (computeTrust DEFAULT_CONFIG exampleMyFollows [] "p" examplePeerFollows).creditLimit
          = 1500
      ∧ (computeTrust DEFAULT_CONFIG exampleMyFollows [] "p" examplePeerFollows).score = 15 := by
  have hformula : (computeTrust config myFollows myFollowers pk peerFollows).creditLimit
      = specCreditLimit config (myFollows.contains pk) (myFollowers.contains pk)
          (countMutualFollowers myFollows peerFollows) := by
    by_cases hF : pk ∈ myFollows <;> by_cases hB : pk ∈ myFollowers <;>
      simp [computeTrust, specCreditLimit, clamp_eq_min, hF, hB]
  refine ⟨hformula, ?_, by decide, by decide⟩
  have hcl : 0 ≤ (computeTrust config myFollows myFollowers pk peerFollows).creditLimit :=
    hformula ▸ specCreditLimit_nonneg config _ _ _ h0 h1 h2 h3 h4
  have hscore : (computeTrust config myFollows myFollowers pk peerFollows).score
      = Int.tdiv ((computeTrust config myFollows myFollowers pk peerFollows).creditLimit * 100)
          config.maxCreditLimit := rfl
  rw [hscore, Int.fdiv_eq_tdiv (mul_nonneg hcl (by norm_num)) h4.le]

/-- C1 witness: the general theorem applied at the spec's worked example. -/
theorem computeTrust_matches_spec_witness :
    (computeTrust DEFAULT_CONFIG exampleMyFollows [] "p" examplePeerFollows).creditLimit
        = 1500
      ∧ (computeTrust DEFAULT_CONFIG exampleMyFollows [] "p" examplePeerFollows).score = 15 :=
  ⟨(computeTrust_matches_spec DEFAULT_CONFIG exampleMyFollows [] examplePeerFollows "p"
      (by decide) (by decide) (by decide) (by decide) (by decide)).2.2.1,
   (computeTrust_matches_spec DEFAULT_CONFIG exampleMyFollows [] examplePeerFollows "p"
      (by decide) (by decide) (by decide) (by decide) (by decide)).2.2.2⟩

/-- C10: the synchronous calculator returned by `getTrustCalculator`
yields exactly `baseCreditForUnfollowed` whenever `isFollowed` is false,
for every pubkey, follower set and cached follow graph; whereas the
asynchronous `computeTrust` still adds the capped mutual-follower bonus
to the unfollowed base (and then clamps). -/
theorem trustCalculator_unfollowed_flat (config : TrustConfig)
    (myFollows myFollowers peerFollows : List String)
    (cached : Option (List String)) (pk : String)
    (hpk : myFollows.contains pk = false) :
    trustCalculator config myFollows myFollowers cached pk false
        = config.baseCreditForUnfollowed
      ∧ (computeTrust config myFollows myFollowers pk peerFollows).creditLimit
        = min (config.baseCreditForUnfollowed
            + min ((countMutualFollowers myFollows peerFollows : Int)
                * config.mutualFollowerBonus) config.maxMutualBonus)
            config.maxCreditLimit := by
  constructor
  · simp [trustCalculator]
  · simp only [computeTrust, hpk, Bool.and_false, if_false, clamp_eq_min]
    simp

/-- C10 witness: an unfollowed pubkey with a mutual follower and a
reverse-follow still gets the flat unfollowed base from the calculator,
while `computeTrust` grants it the capped bonus. -/
theorem trustCalculator_unfollowed_flat_witness :
    trustCalculator DEFAULT_CONFIG ["m0"] ["q"] (some ["m0"]) "q" false = 0
      ∧ (computeTrust DEFAULT_CONFIG ["m0"] ["q"] "q" ["m0"]).creditLimit
        = min ((0 : Int) + min ((countMutualFollowers ["m0"] ["m0"] : Int) * 100) 500) 10000 := by
  have h := trustCalculator_unfollowed_flat DEFAULT_CONFIG ["m0"] ["q"] ["m0"]
    (some ["m0"]) "q" (by decide)
  exact ⟨h.1, h.2⟩

/-! ## Replaceable-record resolution

`events.reduce((a, b) => (a.created_at > b.created_at ? a : b))` appears in
`SocialTrustManager.getFollows`, `NostrSpspClient.getStaticSpspParams`
(src), and `NostrPeerDiscoveryService.getPeerInfo`/`refreshFollowList`.
A non-empty list is modelled as head plus tail. -/

/-- The reduce-based latest-record resolver. -/
def resolveLatest (e : NostrEvent) (es : List NostrEvent) : NostrEvent :=
  es.foldl (fun a b => if a.created_at > b.created_at then a else b) e

/-- Unfolding the reduce one step. -/
theorem resolveLatest_cons (e b : NostrEvent) (t : List NostrEvent) :
    resolveLatest e (b :: t)
      = resolveLatest (if e.created_at > b.created_at then e else b) t := rfl

/-- The resolver returns one of its input records. -/
theorem resolveLatest_mem (e : NostrEvent) (es : List NostrEvent) :
    resolveLatest e es ∈ e :: es := by
  induction es generalizing e with
  | nil => simp [resolveLatest]
  | cons b t ih =>
    rw [resolveLatest_cons]
    rcases List.mem_cons.mp (ih (if e.created_at > b.created_at then e else b)) with h1 | h1
    · rw [h1]
      split <;> simp
    · exact List.mem_cons_of_mem _ (List.mem_cons_of_mem _ h1)

/-- The resolver's result has maximal `created_at`. -/
theorem resolveLatest_le (e : NostrEvent) (es : List NostrEvent) :
    ∀ x ∈ e :: es, x.created_at ≤ (resolveLatest e es).created_at := by
  induction es generalizing e with
  | nil =>
    intro x hx
    simp only [List.mem_singleton] at hx
    simp [hx, resolveLatest]
  | cons b t ih =>
    intro x hx
    rw [resolveLatest_cons]
    have hae : e.created_at ≤ (if e.created_at > b.created_at then e else b).created_at := by
      split <;> omega
    have hab : b.created_at ≤ (if e.created_at > b.created_at then e else b).created_at := by
      split <;> omega
    have hhead := ih (if e.created_at > b.created_at then e else b) _
      (List.mem_cons_self _ _)
    rcases List.mem_cons.mp hx with h1 | h1
    · subst h1; exact le_trans hae hhead
    · rcases List.mem_cons.mp h1 with h2 | h2
      · subst h2; exact le_trans hab hhead
      · exact ih _ x (List.mem_cons_of_mem _ h2)

/-- Counterexample to C4: two records for the same (author, kind) that tie
on the maximal `createdAt`.  The reduce keeps whichever came last, so
permuting the input changes which record is selected. -/
def tieX : NostrEvent :=
  { pubkey := "a", kind := 3, created_at := 5, tags := [["p", "u"]], content := "" }

/-- The other tied record (same author, kind and timestamp, different
payload). -/
def tieY : NostrEvent :=
  { pubkey := "a", kind := 3, created_at := 5, tags := [["p", "v"]], content := "" }

/-- C4 counterexample: with two candidates sharing the maximal
`createdAt`, the resolver's choice depends on the order the records are
presented, refuting the claim's determinism-under-permutation conjunct
(feeding the two orders yields the two different records). -/
theorem resolveLatest_tie_order_dependent :
    resolveLatest tieX [tieY] = tieY ∧ resolveLatest tieY [tieX] = tieX
      ∧ tieX ≠ tieY := by decide

/-- C4 (amended): the resolver returns a record of the input with maximal
`createdAt`; when one record's `createdAt` strictly dominates all others
the result is that record, and is therefore invariant under permutation of
the input (in particular reverse-chronological and chronological feeding
agree); on ties the reduce keeps the last-encountered maximum, so the
selection is order-dependent. -/
theorem resolveLatest_correct (e : NostrEvent) (es : List NostrEvent) :
    (resolveLatest e es ∈ e :: es
        ∧ ∀ x ∈ e :: es, x.created_at ≤ (resolveLatest e es).created_at)
      ∧ (∀ x ∈ e :: es, (∀ y ∈ e :: es, y ≠ x → y.created_at < x.created_at)
          → resolveLatest e es = x)
      ∧ (∀ x ∈ e :: es, (∀ y ∈ e :: es, y ≠ x → y.created_at < x.created_at)
          → ∀ e' es', (e' :: es').Perm (e :: es)
          → resolveLatest e' es' = resolveLatest e es) := by
  have huniq : ∀ (a : NostrEvent) (as : List NostrEvent) (x : NostrEvent), x ∈ a :: as
      → (∀ y ∈ a :: as, y ≠ x → y.created_at < x.created_at) → resolveLatest a as = x := by
    intro a as x hx hstrict
    by_cases hne : resolveLatest a as = x
    · exact hne
    · have h1 := resolveLatest_le a as x hx
      have h2 := hstrict _ (resolveLatest_mem a as) hne
      omega
  refine ⟨⟨resolveLatest_mem e es, resolveLatest_le e es⟩, huniq e es, ?_⟩
  intro x hx hstrict e' es' hperm
  rw [huniq e es x hx hstrict, huniq e' es' x (hperm.mem_iff.mpr hx)]
  intro y hy
  exact hstrict y (hperm.mem_iff.mp hy)

/-- A record strictly newer than `tieX`/`tieY`, for the C4 witness. -/
def newerZ : NostrEvent :=
  { pubkey := "a", kind := 3, created_at := 9, tags := [], content := "" }

/-- C4 witness: on an input whose maximal timestamp is unique, both
orders select the strictly newest record. -/
theorem resolveLatest_correct_witness :
    resolveLatest newerZ [tieX] = newerZ
      ∧ resolveLatest tieX [newerZ] = resolveLatest newerZ [tieX] :=
  ⟨(resolveLatest_correct newerZ [tieX]).2.1 newerZ (by simp) (by decide),
   (resolveLatest_correct newerZ [tieX]).2.2 newerZ (by simp) (by decide)
     tieX [newerZ] (List.Perm.swap _ _ _)⟩

/-! ## Event building and parsing (`src/src/events/builder.ts`,
`src/src/events/parser.ts`) -/

/-- nostr-tools `EventTemplate`: an event before signing. -/
structure EventTemplate where
  kind : Nat
  created_at : Nat
  tags : List (List String)
  content : String
deriving DecidableEq, Repr

/-- `SpspInfoParams` from `builder.ts`; the optional TS field
`receiptsEnabled?: boolean` is an `Option Bool`. -/
structure SpspInfoParams where
  destinationAccount : String
  sharedSecret : String
  receiptsEnabled : Option Bool
deriving DecidableEq, Repr

/-- `buildSpspInfoEvent` from `builder.ts`.  The timestamp
(`Date.now()/1000` in the source) is passed in explicitly. -/
def buildSpspInfoEvent (params : SpspInfoParams) (now : Nat) : EventTemplate :=
  let tags := [["destination", params.destinationAccount],
               ["secret", params.sharedSecret]]
  let tags :=
    match params.receiptsEnabled with
    | some b => tags ++ [["receipts", if b then "true" else "false"]]
    | none => tags
  { kind := SPSP_INFO_KIND, created_at := now, tags := tags, content := "" }

/-- The effect of nostr-tools `finalizeEvent` on the fields the parsers
read: stamp the author pubkey onto the template. -/
def eventOfTemplate (t : EventTemplate) (pk : String) : NostrEvent :=
  { pubkey := pk, kind := t.kind, created_at := t.created_at,
    tags := t.tags, content := t.content }

/-- `SpspInfo` from `src/src/events/types.ts`: note `receiptsEnabled` is a
required boolean there, with no way to express absence. -/
structure SpspInfo where
  pubkey : String
  destinationAccount : String
  sharedSecret : String
  receiptsEnabled : Bool
  createdAt : Nat
deriving DecidableEq, Repr

/-- `parseSpspInfo` from `parser.ts`.  TS indexing `t[1]` past the end of
a tag (undefined) is modelled as `""`; `receiptsTag?.[1] === 'true'` is
the boolean comparison in the `receiptsEnabled` field. -/
def parseSpspInfo (event : NostrEvent) : Option SpspInfo :=
  if event.kind ≠ SPSP_INFO_KIND then none
  else
    match event.tags.find? (fun t => t.head? == some "destination"),
        event.tags.find? (fun t => t.head? == some "secret") with
    | some destTag, some secretTag =>
      let receiptsTag := event.tags.find? (fun t => t.head? == some "receipts")
      some { pubkey := event.pubkey
             destinationAccount := destTag.getD 1 ""
             sharedSecret := secretTag.getD 1 ""
             receiptsEnabled :=
               match receiptsTag with
               | some t => t.getD 1 "" == "true"
               | none => false
             createdAt := event.created_at }
    | _, _ => none

/-- A payload with the optional `receiptsEnabled` omitted. -/
def paramsNoReceipts : SpspInfoParams :=
  { destinationAccount := "g.dest", sharedSecret := "c2VjcmV0", receiptsEnabled := none }

/-- The same payload with `receiptsEnabled` explicitly set to `false`. -/
def paramsReceiptsFalse : SpspInfoParams :=
  { destinationAccount := "g.dest", sharedSecret := "c2VjcmV0", receiptsEnabled := some false }

/-- C5 counterexample: building with `receiptsEnabled` omitted and parsing
back yields `receiptsEnabled = false` — the omitted field reappears as a
default value, and the round trip of the omitted-field payload coincides
with that of a distinct payload, so `parse (build X) = X` fails. -/
theorem spsp_roundtrip_loses_absence :
    parseSpspInfo (eventOfTemplate (buildSpspInfoEvent paramsNoReceipts 100) "pk")
        = parseSpspInfo (eventOfTemplate (buildSpspInfoEvent paramsReceiptsFalse 100) "pk")
      ∧ paramsNoReceipts ≠ paramsReceiptsFalse
      ∧ (parseSpspInfo (eventOfTemplate (buildSpspInfoEvent paramsNoReceipts 100) "pk")).map
          SpspInfo.receiptsEnabled = some false := by decide

/-- C5 (amended): parsing a built payment-setup-static event succeeds and
reproduces `destinationAccount` and `sharedSecret` exactly, and
`receiptsEnabled` when it was present; an omitted `receiptsEnabled` does
not stay absent but reappears as the default `false` (the parsed record
type cannot express absence), alongside the envelope's pubkey and
timestamp. -/
theorem spsp_roundtrip_amended (X : SpspInfoParams) (now : Nat) (pk : String) :
    parseSpspInfo (eventOfTemplate (buildSpspInfoEvent X now) pk)
      = some { pubkey := pk
               destinationAccount := X.destinationAccount
               sharedSecret := X.sharedSecret
               receiptsEnabled := X.receiptsEnabled.getD false
               createdAt := now } := by
  rcases X with ⟨d, s, r⟩
  rcases r with _ | b
  · simp [buildSpspInfoEvent, eventOfTemplate, parseSpspInfo, SPSP_INFO_KIND]
  · rcases b with _ | _ <;>
      simp [buildSpspInfoEvent, eventOfTemplate, parseSpspInfo, SPSP_INFO_KIND]

/-! ## Peer discovery

Two implementations: `NostrPeerDiscovery.discoverPeers` (packages/core)
groups events per author in a `Map`, keeping the strictly newer event,
then parses each survivor; `NostrPeerDiscoveryService.discoverPeers`
(src) parses every event of the query result with no grouping. -/

/-- `IlpPeerInfo` from `src/src/events/types.ts`; an asset is a
(code, scale) pair, a settlement descriptor a (type, details) pair. -/
structure IlpPeerInfo where
  pubkey : String
  ilpAddress : String
  btpEndpoint : String
  assets : List (String × Nat)
  settlement : List (String × List String)
  relays : List String
  createdAt : Nat
deriving DecidableEq, Repr

/-- `parseInt(s, 10) || 0`: the leading decimal digits of `s`, `0` when
there are none (NaN).  JS sign/whitespace handling is not needed for the
tag values the builders emit. -/
def jsParseIntOr0 (s : String) : Nat :=
  (s.data.takeWhile Char.isDigit).foldl (fun n c => n * 10 + (c.toNat - 48)) 0

/-- `parseIlpPeerInfo` from `src/src/events/parser.ts`.  TS indexing past
the end of a tag (undefined) is modelled as `""`. -/
def parseIlpPeerInfo (event : NostrEvent) : Option IlpPeerInfo :=
  if event.kind ≠ ILP_PEER_INFO_KIND then none
  else
    match event.tags.find? (fun t => t.head? == some "ilp"),
        event.tags.find? (fun t => t.head? == some "btp") with
    | some ilpTag, some btpTag =>
      some { pubkey := event.pubkey
             ilpAddress := ilpTag.getD 1 ""
             btpEndpoint := btpTag.getD 1 ""
             assets := (event.tags.filter (fun t => t.head? == some "asset")).map
               (fun t => (t.getD 1 "", jsParseIntOr0 (t.getD 2 "")))
             settlement := (event.tags.filter (fun t => t.head? == some "settlement")).map
               (fun t => (t.getD 1 "", t.drop 2))
             relays := (event.tags.filter (fun t => t.head? == some "relay")).map
               (fun t => t.getD 1 "")
             createdAt := event.created_at }
    | _, _ => none

/-- JS `Map.get` on an association list (insertion order preserved). -/
def aget {α : Type} (m : List (String × α)) (k : String) : Option α :=
  match m with
  | [] => none
  | p :: t => if p.1 = k then some p.2 else aget t k

/-- JS `Map.set`: replace in place when the key exists, append otherwise. -/
def aset {α : Type} (m : List (String × α)) (k : String) (v : α) : List (String × α) :=
  match aget m k with
  | some _ => m.map (fun p => if p.1 = k then (k, v) else p)
  | none => m ++ [(k, v)]

/-- `Map.get` misses exactly the keys not in the map. -/
theorem aget_eq_none (m : List (String × NostrEvent)) (k : String) :
    aget m k = none ↔ k ∉ m.map Prod.fst := by
  induction m with
  | nil => simp [aget]
  | cons p t ih =>
    by_cases hk : p.1 = k
    · simp [aget, hk]
    · simp only [aget, if_neg hk, List.map_cons, List.mem_cons, ih]
      constructor
      · intro h hor
        rcases hor with h1 | h1
        · exact hk h1.symm
        · exact h h1
      · intro h h1
        exact h (Or.inr h1)

/-- `Map.get` hits are entries of the map. -/
theorem aget_mem (m : List (String × NostrEvent)) (k : String) (v : NostrEvent)
    (h : aget m k = some v) : (k, v) ∈ m := by
  induction m with
  | nil => simp [aget] at h
  | cons p t ih =>
    by_cases hk : p.1 = k
    · simp only [aget, if_pos hk] at h
      have : p = (k, v) := by
        rcases p with ⟨a, b⟩
        simp_all
      rw [← this]
      exact List.mem_cons_self _ _
    · simp only [aget, if_neg hk] at h
      exact List.mem_cons_of_mem _ (ih h)

/-- With nodup keys, `Map.get` at an entry's key returns its value. -/
theorem aget_of_mem_nodup (m : List (String × NostrEvent))
    (hnd : (m.map Prod.fst).Nodup) (p : String × NostrEvent) (hp : p ∈ m) :
    aget m p.1 = some p.2 := by
  induction m with
  | nil => simp at hp
  | cons q t ih =>
    simp only [List.map_cons, List.nodup_cons] at hnd
    rcases List.mem_cons.mp hp with h | h
    · subst h
      simp [aget]
    · have hq : q.1 ≠ p.1 := by
        intro heq
        exact hnd.1 (heq ▸ List.mem_map_of_mem Prod.fst h)
      simp only [aget, if_neg hq]
      exact ih hnd.2 h

/-- One step of the part_002 grouping loop: keep the stored event unless
the incoming one is strictly newer (`event.created_at >
existing.created_at`); unknown authors are appended. -/
def groupStep (m : List (String × NostrEvent)) (e : NostrEvent) :
    List (String × NostrEvent) :=
  match aget m e.pubkey with
  | none => m ++ [(e.pubkey, e)]
  | some ex =>
      if e.created_at > ex.created_at then
        m.map (fun p => if p.1 = e.pubkey then (e.pubkey, e) else p)
      else m

/-- The per-author grouping of `NostrPeerDiscovery.discoverPeers`. -/
def groupLatestByPubkey (events : List NostrEvent) : List (String × NostrEvent) :=
  events.foldl groupStep []

/-- Replacing a value in place leaves the key sequence unchanged. -/
theorem keys_replace (m : List (String × NostrEvent)) (e : NostrEvent) :
    (m.map (fun p => if p.1 = e.pubkey then (e.pubkey, e) else p)).map Prod.fst
      = m.map Prod.fst := by
  induction m with
  | nil => rfl
  | cons p t ih =>
    by_cases h : p.1 = e.pubkey <;> simp [h, ih]

/-- Invariant of the grouping loop over the processed prefix of the event
stream: keys are nodup, every entry is a processed event of its own author
maximal among processed events of that author, and every processed author
has an entry. -/
def GroupInv (processed : List NostrEvent) (m : List (String × NostrEvent)) : Prop :=
  (m.map Prod.fst).Nodup
    ∧ (∀ p ∈ m, p.2.pubkey = p.1 ∧ p.2 ∈ processed
        ∧ ∀ e' ∈ processed, e'.pubkey = p.1 → e'.created_at ≤ p.2.created_at)
    ∧ ∀ e ∈ processed, e.pubkey ∈ m.map Prod.fst

/-- The grouping step preserves the invariant. -/
theorem groupStep_inv (processed : List NostrEvent) (m : List (String × NostrEvent))
    (e : NostrEvent) (h : GroupInv processed m) : GroupInv (processed ++ [e]) (groupStep m e) := by
  obtain ⟨hnd, hsound, hcomp⟩ := h
  rcases haget : aget m e.pubkey with _ | ex
  · have hnk : e.pubkey ∉ m.map Prod.fst := (aget_eq_none m e.pubkey).mp haget
    simp only [groupStep, haget]
    refine ⟨?_, ?_, ?_⟩
    · simp only [List.map_append, List.map_cons, List.map_nil]
      simp [List.nodup_append, hnd, hnk]
    · intro p hp
      rcases List.mem_append.mp hp with hp | hp
      · obtain ⟨h1, h2, h3⟩ := hsound p hp
        refine ⟨h1, List.mem_append_left _ h2, ?_⟩
        intro e' he' heq
        rcases List.mem_append.mp he' with he' | he'
        · exact h3 e' he' heq
        · simp only [List.mem_singleton] at he'
          rw [he'] at heq
          exact absurd (show e.pubkey ∈ m.map Prod.fst by
            rw [heq]; exact List.mem_map_of_mem Prod.fst hp) hnk
      · simp only [List.mem_singleton] at hp
        subst hp
        refine ⟨rfl, List.mem_append_right _ (by simp), ?_⟩
        intro e' he' heq
        rcases List.mem_append.mp he' with he' | he'
        · have hin : e'.pubkey ∈ m.map Prod.fst := hcomp e' he'
          rw [heq] at hin
          exact absurd hin hnk
        · simp only [List.mem_singleton] at he'
          subst he'
          exact le_refl _
    · intro e' he'
      simp only [List.map_append, List.map_cons, List.map_nil]
      rcases List.mem_append.mp he' with he' | he'
      · exact List.mem_append_left _ (hcomp e' he')
      · simp only [List.mem_singleton] at he'
        subst he'
        simp
  · have hexmem : (e.pubkey, ex) ∈ m := aget_mem m _ _ haget
    by_cases hgt : e.created_at > ex.created_at
    · simp only [groupStep, haget, if_pos hgt]
      refine ⟨?_, ?_, ?_⟩
      · rw [keys_replace]
        exact hnd
      · intro p hp
        rcases List.mem_map.mp hp with ⟨q, hq, hpq⟩
        by_cases hq1 : q.1 = e.pubkey
        · rw [if_pos hq1] at hpq
          subst hpq
          refine ⟨rfl, List.mem_append_right _ (by simp), ?_⟩
          intro e' he' heq
          rcases List.mem_append.mp he' with he' | he'
          · have h3 : e'.created_at ≤ ex.created_at :=
              (hsound (e.pubkey, ex) hexmem).2.2 e' he' heq
            show e'.created_at ≤ e.created_at
            omega
          · simp only [List.mem_singleton] at he'
            subst he'
            exact le_refl _
        · rw [if_neg hq1] at hpq
          subst hpq
          obtain ⟨h1, h2, h3⟩ := hsound q hq
          refine ⟨h1, List.mem_append_left _ h2, ?_⟩
          intro e' he' heq
          rcases List.mem_append.mp he' with he' | he'
          · exact h3 e' he' heq
          · simp only [List.mem_singleton] at he'
            subst he'
            exact absurd heq.symm hq1
      · intro e' he'
        rw [keys_replace]
        rcases List.mem_append.mp he' with he' | he'
        · exact hcomp e' he'
        · simp only [List.mem_singleton] at he'
          subst he'
          exact List.mem_map_of_mem Prod.fst hexmem
    · simp only [groupStep, haget, if_neg hgt]
      refine ⟨hnd, ?_, ?_⟩
      · intro p hp
        obtain ⟨h1, h2, h3⟩ := hsound p hp
        refine ⟨h1, List.mem_append_left _ h2, ?_⟩
        intro e' he' heq
        rcases List.mem_append.mp he' with he' | he'
        · exact h3 e' he' heq
        · simp only [List.mem_singleton] at he'
          subst he'
          have hag := aget_of_mem_nodup m hnd p hp
          rw [← heq, haget] at hag
          have hex2 : ex = p.2 := by injection hag
          rw [← hex2]
          omega
      · intro e' he'
        rcases List.mem_append.mp he' with he' | he'
        · exact hcomp e' he'
        · simp only [List.mem_singleton] at he'
          subst he'
          exact List.mem_map_of_mem Prod.fst hexmem

/-- The grouping of a whole event stream satisfies the invariant. -/
theorem groupLatest_inv (events : List NostrEvent) :
    GroupInv events (groupLatestByPubkey events) := by
  have main : ∀ (pending processed : List NostrEvent) (m : List (String × NostrEvent)),
      GroupInv processed m → GroupInv (processed ++ pending) (pending.foldl groupStep m) := by
    intro pending
    induction pending with
    | nil =>
      intro processed m h
      simpa using h
    | cons e t ih =>
      intro processed m h
      have h3 := ih (processed ++ [e]) (groupStep m e) (groupStep_inv processed m e h)
      simpa using h3
  have h0 : GroupInv [] [] := ⟨by simp, by simp, by simp⟩
  simpa using main events [] [] h0

/-- `NostrPeerDiscovery.discoverPeers` (part_002), with the network phase
resolved: `follows` is the resolved follow list, `events` the relay
response for the peer-advertisement query, and `parseCore` the package's
event parser (throwing parse modelled as `Option`).  Each grouped
survivor that parses lands in the result map; parse failures are skipped. -/
def discoverPeersCore {β : Type} (parseCore : NostrEvent → Option β)
    (follows : List String) (events : List NostrEvent) : List (String × β) :=
  if follows.isEmpty then []
  else (groupLatestByPubkey events).filterMap
    (fun pe => (parseCore pe.2).map (fun info => (pe.1, info)))

/-- `NostrPeerDiscoveryService.discoverPeers` (part_004), with the network
phase resolved: every event of the query result that parses is pushed,
with no per-author grouping. -/
def svcDiscoverPeers (follows : List String) (events : List NostrEvent) :
    List IlpPeerInfo :=
  if follows.isEmpty then []
  else events.filterMap parseIlpPeerInfo

/-- A first valid peer advertisement by author "a". -/
def ilpEvA1 : NostrEvent :=
  { pubkey := "a", kind := 10032, created_at := 1,
    tags := [["ilp", "g.a1"], ["btp", "wss://a1"]], content := "" }

/-- A second, newer valid peer advertisement by the same author. -/
def ilpEvA2 : NostrEvent :=
  { pubkey := "a", kind := 10032, created_at := 2,
    tags := [["ilp", "g.a2"], ["btp", "wss://a2"]], content := "" }

/-- C7 counterexample: `NostrPeerDiscoveryService.discoverPeers` performs
no per-author deduplication — two valid advertisements by the same
followed author produce two result entries, refuting "at most one entry
per followed author". -/
theorem svcDiscoverPeers_duplicate_author :
    (svcDiscoverPeers ["a"] [ilpEvA1, ilpEvA2]).map IlpPeerInfo.pubkey = ["a", "a"] := by
  decide

/-- C7 (amended): the core `NostrPeerDiscovery.discoverPeers` returns at
most one entry per author — the strictly-latest record per author, parsed,
with authors whose surviving record fails to parse (or who published no
valid record) silently absent, and an empty follow list giving an empty
result, never an error; the src `NostrPeerDiscoveryService.discoverPeers`
instead emits one entry per valid event, without per-author grouping. -/
theorem discoverPeers_core_correct {β : Type} (parseCore : NostrEvent → Option β)
    (follows : List String) (events : List NostrEvent) :
    (follows.isEmpty = true → discoverPeersCore parseCore follows events = [])
      ∧ ((discoverPeersCore parseCore follows events).map Prod.fst).Nodup
      ∧ (∀ p ∈ discoverPeersCore parseCore follows events,
          ∃ e ∈ events, e.pubkey = p.1 ∧ parseCore e = some p.2
            ∧ ∀ e' ∈ events, e'.pubkey = p.1 → e'.created_at ≤ e.created_at)
      ∧ ∀ pk, (∀ e ∈ events, e.pubkey = pk → parseCore e = none)
          → pk ∉ (discoverPeersCore parseCore follows events).map Prod.fst := by
  obtain ⟨hnd, hsound, _⟩ := groupLatest_inv events
  have hkeys : ∀ (l : List (String × NostrEvent)),
      ((l.filterMap (fun pe => (parseCore pe.2).map (fun info => (pe.1, info)))).map
        Prod.fst).Sublist (l.map Prod.fst) := by
    intro l
    induction l with
    | nil => simp
    | cons p t ih =>
      rcases hp : parseCore p.2 with _ | v
      · simp only [List.filterMap_cons, hp, Option.map_none', List.map_cons]
        exact ih.cons _
      · simp only [List.filterMap_cons, hp, Option.map_some', List.map_cons]
        exact ih.cons₂ _
  have hmem : ∀ p ∈ discoverPeersCore parseCore follows events,
      ∃ e ∈ events, e.pubkey = p.1 ∧ parseCore e = some p.2
        ∧ ∀ e' ∈ events, e'.pubkey = p.1 → e'.created_at ≤ e.created_at := by
    intro p hp
    unfold discoverPeersCore at hp
    split at hp
    · simp at hp
    · obtain ⟨pe, hpe, hparse⟩ := List.mem_filterMap.mp hp
      rcases hparse2 : parseCore pe.2 with _ | v
      · rw [hparse2] at hparse
        simp at hparse
      · rw [hparse2] at hparse
        simp only [Option.map_some', Option.some.injEq] at hparse
        obtain ⟨h1, h2, h3⟩ := hsound pe hpe
        refine ⟨pe.2, h2, by rw [h1, ← hparse], by rw [← hparse]; exact hparse2, ?_⟩
        intro e' he' heq
        exact h3 e' he' (by rw [← hparse] at heq; exact heq)
  refine ⟨?_, ?_, hmem, ?_⟩
  · intro h
    simp [discoverPeersCore, h]
  · unfold discoverPeersCore
    split
    · simp
    · exact hnd.sublist (hkeys _)
  · intro pk hnone hmemk
    obtain ⟨p, hp, hpk⟩ := List.mem_map.mp hmemk
    obtain ⟨e, he, hepk, hparse, _⟩ := hmem p hp
    exact by simp [hnone e he (by rw [hepk, hpk])] at hparse

/-- C7 witness: an empty follow list gives an empty result, and an author
none of whose records parse is absent. -/
theorem discoverPeers_core_correct_witness :
    discoverPeersCore parseIlpPeerInfo [] [ilpEvA1, ilpEvA2] = []
      ∧ "b" ∉ (discoverPeersCore parseIlpPeerInfo ["a"] [ilpEvA1, ilpEvA2]).map Prod.fst :=
  ⟨(discoverPeers_core_correct parseIlpPeerInfo [] [ilpEvA1, ilpEvA2]).1 (by decide),
   (discoverPeers_core_correct parseIlpPeerInfo ["a"] [ilpEvA1, ilpEvA2]).2.2.2 "b"
     (by decide)⟩

/-! ## Live peer-update subscriptions (C6) -/

/-- After a `set`, `get` at the same key returns the new value
(append case). -/
theorem aget_append_none {α : Type} (m : List (String × α)) (k : String) (v : α)
    (h : aget m k = none) : aget (m ++ [(k, v)]) k = some v := by
  induction m with
  | nil => simp [aget]
  | cons p t ih =>
    by_cases hk : p.1 = k
    · simp [aget, hk] at h
    · simp only [List.cons_append, aget, if_neg hk] at h ⊢
      exact ih h

/-- After a `set`, `get` at the same key returns the new value
(replace case). -/
theorem aget_replace_self {α : Type} (m : List (String × α)) (k : String) (v : α) :
    (aget m k).isSome
      → aget (m.map (fun p => if p.1 = k then (k, v) else p)) k = some v := by
  induction m with
  | nil => simp [aget]
  | cons p t ih =>
    intro hmem
    by_cases hk : p.1 = k
    · simp [aget, hk]
    · simp only [List.map_cons, if_neg hk, aget]
      apply ih
      simpa [aget, if_neg hk] using hmem

/-- `get` after `set` at the same key yields the written value. -/
theorem aget_aset_self {α : Type} (m : List (String × α)) (k : String) (v : α) :
    aget (aset m k v) k = some v := by
  unfold aset
  rcases h : aget m k with _ | ex
  · exact aget_append_none m k v h
  · exact aget_replace_self m k v (by simp [h])

/-- State of one `NostrPeerDiscovery.subscribeToPeerUpdates` subscription
(part_002): the `peerTimestamps` map and unsubscribe flag created inside
the subscription call — per subscription, not shared — plus the log of
callback invocations.  `β` is the parsed peer-info type of the package's
parser. -/
structure SubState (β : Type) where
  peerTimestamps : List (String × Nat)
  isUnsubscribed : Bool
  callbacks : List (String × β)

/-- The `onevent` handler of `NostrPeerDiscovery.subscribeToPeerUpdates`
(part_002): drop when unsubscribed; drop silently when `created_at ≤
lastSeen` (`?? 0` for unseen authors); otherwise record the timestamp and,
when the event parses, invoke the callback. -/
def subOnevent {β : Type} (parseCore : NostrEvent → Option β) (st : SubState β)
    (e : NostrEvent) : SubState β :=
  if st.isUnsubscribed then st
  else
    let lastSeen := (aget st.peerTimestamps e.pubkey).getD 0
    if e.created_at ≤ lastSeen then st
    else
      let st1 : SubState β :=
        { st with peerTimestamps := aset st.peerTimestamps e.pubkey e.created_at }
      match parseCore e with
      | some info => { st1 with callbacks := st1.callbacks ++ [(e.pubkey, info)] }
      | none => st1

/-- `NostrPeerDiscoveryService` instance state (part_004): the
`peerInfoCache` map shared by `discoverPeers`, `getPeerInfo` and every
subscription of the instance. -/
structure ServiceState where
  peerInfoCache : List (String × IlpPeerInfo)
deriving Repr

/-- The `onevent` handler of
`NostrPeerDiscoveryService.subscribeToPeerUpdates` (part_004): parse; when
valid and newer than the instance cache entry, cache it and invoke
`onUpdate` (the invocation returned as `some info`). -/
def svcSubOnevent (st : ServiceState) (e : NostrEvent) :
    ServiceState × Option IlpPeerInfo :=
  match parseIlpPeerInfo e with
  | none => (st, none)
  | some info =>
    match aget st.peerInfoCache info.pubkey with
    | some existing =>
        if info.createdAt > existing.createdAt then
          ({ peerInfoCache := aset st.peerInfoCache info.pubkey info }, some info)
        else (st, none)
    | none => ({ peerInfoCache := aset st.peerInfoCache info.pubkey info }, some info)

/-- A cached peer advertisement for author "a" at timestamp 10, as left in
the instance cache by an earlier `discoverPeers`/`getPeerInfo` call. -/
def infoA10 : IlpPeerInfo :=
  { pubkey := "a", ilpAddress := "g.a", btpEndpoint := "wss://a",
    assets := [], settlement := [], relays := [], createdAt := 10 }

/-- A valid advertisement by author "a" at timestamp 5, the first record a
fresh subscription ever receives for "a". -/
def ilpEvA5 : NostrEvent :=
  { pubkey := "a", kind := 10032, created_at := 5,
    tags := [["ilp", "g.a5"], ["btp", "wss://a5"]], content := "" }

/-- C6 counterexample: in `NostrPeerDiscoveryService` the last-seen state
is the instance-wide `peerInfoCache`, not per-subscription state.  With
"a" already cached at timestamp 10 by an earlier discovery call, a fresh
subscription receives a valid record for "a" at timestamp 5 — strictly
newer than everything this subscription has seen (nothing, i.e. 5 > 0)
and parseable — yet the callback is not invoked, contradicting the
claimed per-subscription scoping. -/
theorem svcSubscription_shared_state_drops_fresh_update :
    (svcSubOnevent { peerInfoCache := [("a", infoA10)] } ilpEvA5).2 = none
      ∧ (5 : Nat) > 0 ∧ (parseIlpPeerInfo ilpEvA5).isSome := by decide

/-- C6 (amended): in the core `NostrPeerDiscovery.subscribeToPeerUpdates`
the callback fires only for records strictly newer than the
per-subscription per-author last-seen timestamp (unseen authors count as
0): an equal-or-older record leaves the subscription state untouched and
triggers no callback, a strictly newer one updates last-seen and triggers
the callback exactly when it parses.  In the src
`NostrPeerDiscoveryService` the newer-than check is instead made against
the instance-wide `peerInfoCache`, which is shared with the discovery
queries and all subscriptions of the instance rather than scoped to the
individual subscription. -/
theorem subscription_isNewer_filter {β : Type} (parseCore : NostrEvent → Option β)
    (st : SubState β) (e : NostrEvent) (hun : st.isUnsubscribed = false) :
    (e.created_at ≤ (aget st.peerTimestamps e.pubkey).getD 0
        → subOnevent parseCore st e = st)
      ∧ ((aget st.peerTimestamps e.pubkey).getD 0 < e.created_at
        → aget (subOnevent parseCore st e).peerTimestamps e.pubkey = some e.created_at
          ∧ (subOnevent parseCore st e).callbacks
            = st.callbacks ++ (match parseCore e with
                | some info => [(e.pubkey, info)]
                | none => [])) := by
  constructor
  · intro hle
    simp [subOnevent, hun, if_pos hle]
  · intro hlt
    have hnle : ¬ e.created_at ≤ (aget st.peerTimestamps e.pubkey).getD 0 :=
      not_le.mpr hlt
    rcases hp : parseCore e with _ | info
    · simp [subOnevent, hun, if_neg hnle, hp, aget_aset_self]
    · simp [subOnevent, hun, if_neg hnle, hp, aget_aset_self]

/-- C6 witness: a record at timestamp 5 against a last-seen of 7 is
dropped with the subscription state unchanged. -/
theorem subscription_isNewer_filter_witness :
    subOnevent parseIlpPeerInfo
        { peerTimestamps := [("a", 7)], isUnsubscribed := false, callbacks := [] } ilpEvA5
      = { peerTimestamps := [("a", 7)], isUnsubscribed := false, callbacks := [] } :=
  (subscription_isNewer_filter parseIlpPeerInfo
      { peerTimestamps := [("a", 7)], isUnsubscribed := false, callbacks := [] }
      ilpEvA5 rfl).1 (by decide)

/-! ## Encrypted correlator (C2, C3)

`NostrSpspClient.requestSpspInfo` (packages/core): after publishing the
encrypted request, a subscription and a timer race on the single-threaded
event loop.  A run of the exchange is a schedule of candidate deliveries
and the timer firing at the deadline.  `parseResp` abstracts
`parseSpspResponse` (decrypt + shape-check, throwing on failure, modelled
as `Option`). -/

/-- The decrypted, well-formed content of a response: the embedded request
id and the SPSP result fields. -/
structure ParsedSpspResponse where
  requestId : String
  destinationAccount : String
  sharedSecret : String
deriving DecidableEq, Repr

/-- The value `requestSpspInfo` resolves with. -/
structure SpspResult where
  destinationAccount : String
  sharedSecret : String
deriving DecidableEq, Repr

/-- Settled outcome of the exchange: success, or the distinct
`SpspTimeoutError` rejection. -/
inductive CorrOutcome where
  | success (r : SpspResult)
  | timedOut
deriving DecidableEq, Repr

/-- Correlator state for one outstanding request: the `resolved` flag, the
settled outcome (`none` while pending), and the teardown flags
(`clearTimeout` called, `sub.close()` called). -/
structure CorrState where
  resolved : Bool
  outcome : Option CorrOutcome
  timerCancelled : Bool
  subClosed : Bool
deriving DecidableEq, Repr

/-- State before any candidate or the timer has run. -/
def initialCorrState : CorrState :=
  { resolved := false, outcome := none, timerCancelled := false, subClosed := false }

/-- The `onevent` handler of `requestSpspInfo`: already-resolved guard;
a `parseSpspResponse` throw is caught and the candidate ignored; a
mismatched embedded request id is ignored ("not our response"); a
decryptable matching candidate resolves, cancels the timer and closes the
subscription. -/
def corrOnevent (parseResp : NostrEvent → Option ParsedSpspResponse) (requestId : String)
    (st : CorrState) (c : NostrEvent) : CorrState :=
  if st.resolved then st
  else
    match parseResp c with
    | none => st
    | some r =>
      if r.requestId ≠ requestId then st
      else
        { resolved := true
          outcome := some (.success { destinationAccount := r.destinationAccount
                                      sharedSecret := r.sharedSecret })
          timerCancelled := true
          subClosed := true }

/-- The timeout callback of `requestSpspInfo`: already-resolved guard,
then close the subscription and reject with `SpspTimeoutError`. -/
def corrOnTimeout (st : CorrState) : CorrState :=
  if st.resolved then st
  else { resolved := true, outcome := some .timedOut,
         timerCancelled := st.timerCancelled, subClosed := true }

/-- One schedule item: a candidate delivery, or the timer firing at the
deadline. -/
inductive CorrInput where
  | response (c : NostrEvent)
  | timerFire
deriving DecidableEq, Repr

/-- Dispatch one schedule item to its handler. -/
def corrStep (parseResp : NostrEvent → Option ParsedSpspResponse) (requestId : String)
    (st : CorrState) : CorrInput → CorrState
  | .response c => corrOnevent parseResp requestId st c
  | .timerFire => corrOnTimeout st

/-- Run a whole schedule from the initial state. -/
def runCorr (parseResp : NostrEvent → Option ParsedSpspResponse) (requestId : String)
    (tr : List CorrInput) : CorrState :=
  tr.foldl (corrStep parseResp requestId) initialCorrState

/-- A candidate terminates the wait exactly when it decrypts and carries
the matching request id; this is the value it resolves with. -/
def matchesRequest (parseResp : NostrEvent → Option ParsedSpspResponse) (requestId : String)
    (c : NostrEvent) : Option SpspResult :=
  match parseResp c with
  | some r =>
      if r.requestId = requestId then
        some { destinationAccount := r.destinationAccount, sharedSecret := r.sharedSecret }
      else none
  | none => none

/-- The outcome dictated by the first effective schedule item: the timer
firing, or the first matching decryptable candidate. -/
def firstOutcome (parseResp : NostrEvent → Option ParsedSpspResponse) (requestId : String) :
    List CorrInput → Option CorrOutcome
  | [] => none
  | .timerFire :: _ => some .timedOut
  | .response c :: rest =>
    match matchesRequest parseResp requestId c with
    | some r => some (.success r)
    | none => firstOutcome parseResp requestId rest

/-- A resolved state absorbs every further schedule item. -/
theorem runFrom_resolved (parseResp : NostrEvent → Option ParsedSpspResponse)
    (requestId : String) (tr : List CorrInput) (st : CorrState) (h : st.resolved = true) :
    tr.foldl (corrStep parseResp requestId) st = st := by
  induction tr with
  | nil => rfl
  | cons i rest ih =>
    have hstep : corrStep parseResp requestId st i = st := by
      cases i <;> simp [corrStep, corrOnevent, corrOnTimeout, h]
    rw [List.foldl_cons, hstep, ih]

/-- A prefix with no effective item does not affect the dictated outcome. -/
theorem firstOutcome_append (parseResp : NostrEvent → Option ParsedSpspResponse)
    (requestId : String) (pre l : List CorrInput)
    (h : firstOutcome parseResp requestId pre = none) :
    firstOutcome parseResp requestId (pre ++ l) = firstOutcome parseResp requestId l := by
  induction pre with
  | nil => rfl
  | cons i rest ih =>
    cases i with
    | timerFire => simp [firstOutcome] at h
    | response c =>
      rcases hm : matchesRequest parseResp requestId c with _ | r
      · simp only [firstOutcome, hm] at h
        simp only [List.cons_append, firstOutcome, hm]
        exact ih h
      · simp [firstOutcome, hm] at h

/-- Running a schedule from an unresolved state yields exactly the state
dictated by the first effective item (and leaves the state untouched when
there is none). -/
theorem runCorrFrom_spec (parseResp : NostrEvent → Option ParsedSpspResponse)
    (requestId : String) (tr : List CorrInput) :
    ∀ st : CorrState, st.resolved = false →
    tr.foldl (corrStep parseResp requestId) st
      = match firstOutcome parseResp requestId tr with
        | none => st
        | some (.success r) =>
            { resolved := true, outcome := some (.success r),
              timerCancelled := true, subClosed := true }
        | some .timedOut =>
            { resolved := true, outcome := some .timedOut,
              timerCancelled := st.timerCancelled, subClosed := true } := by
  induction tr with
  | nil =>
    intro st _
    simp [firstOutcome]
  | cons i rest ih =>
    intro st hst
    cases i with
    | timerFire =>
      have hstep : corrStep parseResp requestId st .timerFire
          = { resolved := true, outcome := some .timedOut,
              timerCancelled := st.timerCancelled, subClosed := true } := by
        simp [corrStep, corrOnTimeout, hst]
      rw [List.foldl_cons, hstep,
        runFrom_resolved parseResp requestId rest _ rfl]
      simp [firstOutcome]
    | response c =>
      rcases hm : matchesRequest parseResp requestId c with _ | r
      · have hstep : corrStep parseResp requestId st (.response c) = st := by
          unfold matchesRequest at hm
          rcases hp : parseResp c with _ | pr
          · simp [corrStep, corrOnevent, hst, hp]
          · rw [hp] at hm
            have hne : pr.requestId ≠ requestId := by
              intro heq
              simp [heq] at hm
            simp [corrStep, corrOnevent, hst, hp, hne]
        rw [List.foldl_cons, hstep]
        have := ih st hst
        rw [this]
        simp only [firstOutcome, hm]
      · have hstep : corrStep parseResp requestId st (.response c)
            = { resolved := true, outcome := some (.success r),
                timerCancelled := true, subClosed := true } := by
          simp only [matchesRequest] at hm
          rcases hp : parseResp c with _ | pr
          · rw [hp] at hm
            exact Option.noConfusion hm
          · rw [hp] at hm
            simp only at hm
            by_cases heq : pr.requestId = requestId
            · rw [if_pos heq] at hm
              simp only [Option.some.injEq] at hm
              simp [corrStep, corrOnevent, hst, hp, heq, hm]
            · rw [if_neg heq] at hm
              exact Option.noConfusion hm
        rw [List.foldl_cons, hstep,
          runFrom_resolved parseResp requestId rest _ rfl]
        simp [firstOutcome, hm]

/-- C2: the exchange settles exactly once — the final outcome is the one
dictated by the first effective schedule item, a settled exchange absorbs
every later delivery (duplicate matching responses and the timer are
ignored), a schedule whose deadline fires before any matching decryptable
candidate rejects with the distinct timeout error and tears the listener
down even if a matching response arrives afterwards, and a matching
candidate before the deadline resolves, closes the listener and cancels
the timer regardless of what follows. -/
theorem correlator_exclusive_resolution (parseResp : NostrEvent → Option ParsedSpspResponse)
    (requestId : String) (tr pre post more : List CorrInput) (c : NostrEvent)
    (res : SpspResult) :
    ((runCorr parseResp requestId tr).outcome = firstOutcome parseResp requestId tr)
      ∧ ((runCorr parseResp requestId tr).resolved = true →
          runCorr parseResp requestId (tr ++ more) = runCorr parseResp requestId tr)
      ∧ (firstOutcome parseResp requestId pre = none →
          runCorr parseResp requestId (pre ++ .timerFire :: post)
            = { resolved := true, outcome := some .timedOut,
                timerCancelled := false, subClosed := true })
      ∧ (firstOutcome parseResp requestId pre = none →
          matchesRequest parseResp requestId c = some res →
          runCorr parseResp requestId (pre ++ .response c :: post)
            = { resolved := true, outcome := some (.success res),
                timerCancelled := true, subClosed := true }) := by
  have hrun := runCorrFrom_spec parseResp requestId
  refine ⟨?_, ?_, ?_, ?_⟩
  · have h := hrun tr initialCorrState rfl
    unfold runCorr
    rw [h]
    rcases firstOutcome parseResp requestId tr with _ | o
    · rfl
    · cases o <;> rfl
  · intro hres
    unfold runCorr
    rw [List.foldl_append]
    exact runFrom_resolved parseResp requestId more _ hres
  · intro hpre
    unfold runCorr
    rw [hrun _ initialCorrState rfl,
      firstOutcome_append parseResp requestId pre _ hpre]
    rfl
  · intro hpre hm
    unfold runCorr
    rw [hrun _ initialCorrState rfl,
      firstOutcome_append parseResp requestId pre _ hpre]
    simp [firstOutcome, hm]

/-- Concrete stand-in for `parseSpspResponse` in witnesses: response-kind
events decrypt to a payload whose embedded request id is the content. -/
def parseRespDemo (e : NostrEvent) : Option ParsedSpspResponse :=
  if e.kind = SPSP_RESPONSE_KIND then
    some { requestId := e.content, destinationAccount := "g.r", sharedSecret := "sec" }
  else none

/-- A candidate that decrypts and matches request id "req1". -/
def respMatching : NostrEvent :=
  { pubkey := "s", kind := 23195, created_at := 50, tags := [], content := "req1" }

/-- A candidate that decrypts but answers a different request. -/
def respOther : NostrEvent :=
  { pubkey := "s", kind := 23195, created_at := 49, tags := [], content := "other" }

/-- C2 witness: with one non-matching delivery before the deadline and the
matching response only after it, the exchange times out, closes the
listener, and the late response does not resolve it. -/
theorem correlator_exclusive_resolution_witness :
    runCorr parseRespDemo "req1"
        ([.response respOther] ++ .timerFire :: [.response respMatching])
      = { resolved := true, outcome := some .timedOut,
          timerCancelled := false, subClosed := true } :=
  (correlator_exclusive_resolution parseRespDemo "req1" [] [.response respOther]
      [.response respMatching] [] respMatching
      { destinationAccount := "g.r", sharedSecret := "sec" }).2.2.1 (by decide)

/-- Settlement of the src client's `waitForResponse` promise. -/
inductive SrcWaitOutcome (γ : Type) where
  | resolvedWith (resp : γ)
  | rejectedDecryptFailure
deriving Repr

/-- The `onevent` handler of `NostrSpspClient.waitForResponse`
(src `nostr-spsp-client.ts`): on the first delivered candidate it runs
`clearTimeout` and `sub.close()`, then decrypts — success resolves the
promise, a decrypt/parse throw REJECTS it.  `decryptResp` abstracts
nip44 decrypt + `JSON.parse`; the state is the settled outcome (`none`
while pending; a settled JS promise ignores later settle attempts). -/
def srcWaitStep {γ : Type} (decryptResp : NostrEvent → Option γ)
    (st : Option (SrcWaitOutcome γ)) (c : NostrEvent) : Option (SrcWaitOutcome γ) :=
  match st with
  | some o => some o
  | none =>
    match decryptResp c with
    | some resp => some (.resolvedWith resp)
    | none => some .rejectedDecryptFailure

/-- An undecryptable candidate (garbage ciphertext). -/
def badCipherEv : NostrEvent :=
  { pubkey := "s", kind := 23195, created_at := 50, tags := [["e", "req1"]],
    content := "not-valid-ciphertext" }

/-- Decryption oracle under which that candidate fails to decrypt. -/
def decryptFailOracle : NostrEvent → Option SpspResult := fun _ => none

/-- C3 counterexample: in the src client's `waitForResponse`, a candidate
that fails decryption does not leave the wait pending — it settles the
promise with a rejection, so the wait neither continues nor survives a
malformed candidate. -/
theorem srcClient_rejects_on_decrypt_failure :
    srcWaitStep decryptFailOracle none badCipherEv
        = some SrcWaitOutcome.rejectedDecryptFailure
      ∧ srcWaitStep decryptFailOracle none badCipherEv ≠ none := by
  exact ⟨rfl, by simp [srcWaitStep, decryptFailOracle]⟩

/-- C3 (amended): in the core client's handler every candidate that fails
decryption/parsing, and every candidate whose embedded request id does not
match the outstanding request, is discarded with the correlator state
completely unchanged (the wait continues); only a candidate that both
decrypts and matches changes the state, and then it resolves the request.
In the src client's `waitForResponse`, by contrast, the first delivered
candidate settles the promise — a decryption failure rejects the pending
request instead of being discarded. -/
theorem correlator_discards_invalid (parseResp : NostrEvent → Option ParsedSpspResponse)
    (requestId : String) (st : CorrState) (c : NostrEvent) (r : ParsedSpspResponse) :
    (parseResp c = none → corrOnevent parseResp requestId st c = st)
      ∧ (parseResp c = some r → r.requestId ≠ requestId →
          corrOnevent parseResp requestId st c = st)
      ∧ (st.resolved = false → corrOnevent parseResp requestId st c ≠ st →
          ∃ r', parseResp c = some r' ∧ r'.requestId = requestId
            ∧ (corrOnevent parseResp requestId st c).outcome
              = some (.success { destinationAccount := r'.destinationAccount
                                 sharedSecret := r'.sharedSecret })) := by
  refine ⟨?_, ?_, ?_⟩
  · intro hp
    simp [corrOnevent, hp]
  · intro hp hne
    simp [corrOnevent, hp, hne]
  · intro hst hchanged
    rcases hp : parseResp c with _ | r'
    · exact absurd (by simp [corrOnevent, hp]) hchanged
    · by_cases heq : r'.requestId = requestId
      · exact ⟨r', rfl, heq, by simp [corrOnevent, hst, hp, heq]⟩
      · exact absurd (by simp [corrOnevent, hp, heq]) hchanged

/-- C3 witness: a non-matching decryptable candidate and an undecryptable
candidate both leave the pending correlator state unchanged. -/
theorem correlator_discards_invalid_witness :
    corrOnevent parseRespDemo "req1" initialCorrState respOther = initialCorrState
      ∧ corrOnevent (fun _ => none) "req1" initialCorrState badCipherEv
        = initialCorrState :=
  ⟨(correlator_discards_invalid parseRespDemo "req1" initialCorrState respOther
      { requestId := "other", destinationAccount := "g.r", sharedSecret := "sec" }).2.1
      (by decide) (by decide),
   (correlator_discards_invalid (fun _ => none) "req1" initialCorrState badCipherEv
      { requestId := "x", destinationAccount := "y", sharedSecret := "z" }).1 rfl⟩

/-! ## Bootstrap sequencer (`BootstrapService` in part_000) -/

/-- `KnownPeer` from the bootstrap service. -/
structure KnownPeer where
  pubkey : String
  relayUrl : String
  btpEndpoint : String
deriving DecidableEq, Repr

/-- `PUBKEY_REGEX = /^[0-9a-f]{64}$/`. -/
def isValidPubkey (s : String) : Bool :=
  s.length == 64 && s.data.all (fun c => c.isDigit || ('a' ≤ c && c ≤ 'f'))

/-- `BootstrapService.bootstrapWithPeer`, with the network steps
(peer-info query, SPSP handshake, connector registration, publishing our
advertisement) abstracted by `steps`, returning the seed's
`BootstrapResult` or `none` when any step throws.  Identity-format
validation is concrete and runs first: a malformed pubkey fails that seed
before any network call. -/
def bootstrapWithPeer {ρ : Type} (steps : KnownPeer → Option ρ) (p : KnownPeer) :
    Option ρ :=
  if !isValidPubkey p.pubkey then none
  else steps p

/-- `BootstrapService.bootstrap`: iterate the seeds sequentially in input
order, catch each seed's failure, push each success. -/
def bootstrap {ρ : Type} (steps : KnownPeer → Option ρ) (seeds : List KnownPeer) :
    List ρ :=
  seeds.foldl (fun results p =>
    match bootstrapWithPeer steps p with
    | some r => results ++ [r]
    | none => results) []

/-- C8: `bootstrap` is the in-order filter of the per-seed outcomes — the
result list contains exactly the seeds that fully succeeded, in input
order, one seed's failure (in particular a malformed 64-hex identity,
which fails before any network step) neither blocking nor reordering the
rest; with three seeds whose second fails identity validation, exactly the
first and third results are returned. -/
theorem bootstrap_partial_success {ρ : Type} (steps : KnownPeer → Option ρ)
    (seeds : List KnownPeer) (s1 s2 s3 : KnownPeer) (r1 r3 : ρ) :
    bootstrap steps seeds = seeds.filterMap (bootstrapWithPeer steps)
      ∧ (∀ p, isValidPubkey p.pubkey = false → bootstrapWithPeer steps p = none)
      ∧ (isValidPubkey s1.pubkey = true → isValidPubkey s2.pubkey = false →
          isValidPubkey s3.pubkey = true → steps s1 = some r1 → steps s3 = some r3 →
          bootstrap steps [s1, s2, s3] = [r1, r3]) := by
  have hfold : ∀ (l : List KnownPeer) (acc : List ρ),
      l.foldl (fun results p =>
        match bootstrapWithPeer steps p with
        | some r => results ++ [r]
        | none => results) acc
      = acc ++ l.filterMap (bootstrapWithPeer steps) := by
    intro l
    induction l with
    | nil => intro acc; simp
    | cons p t ih =>
      intro acc
      rcases h : bootstrapWithPeer steps p with _ | r
      · simp [h, ih acc]
      · rw [List.foldl_cons, h]
        simp only [List.filterMap_cons, h]
        rw [ih (acc ++ [r])]
        simp
  have hmain : bootstrap steps seeds = seeds.filterMap (bootstrapWithPeer steps) := by
    unfold bootstrap
    simpa using hfold seeds []
  refine ⟨hmain, ?_, ?_⟩
  · intro p hv
    simp [bootstrapWithPeer, hv]
  · intro h1 h2 h3 hs1 hs3
    unfold bootstrap
    simpa using hfold [s1, s2, s3] [] |>.trans
      (by simp [bootstrapWithPeer, h1, h2, h3, hs1, hs3])

/-- A valid all-zero 64-hex seed identity. -/
def seedGood1 : KnownPeer :=
  { pubkey := "0000000000000000000000000000000000000000000000000000000000000000",
    relayUrl := "wss://r1", btpEndpoint := "wss://b1" }

/-- A seed whose identity fails the 64-hex format check. -/
def seedBad : KnownPeer :=
  { pubkey := "NOT-A-PUBKEY", relayUrl := "wss://r2", btpEndpoint := "wss://b2" }

/-- Another valid 64-hex seed identity. -/
def seedGood3 : KnownPeer :=
  { pubkey := "ffffffffffffffffffffffffffffffffffffffffffffffffffffffffffffffff",
    relayUrl := "wss://r3", btpEndpoint := "wss://b3" }

/-- C8 witness: three seeds whose second fails identity validation yield
exactly the first and third results, in order. -/
theorem bootstrap_partial_success_witness :
    bootstrap (fun p => some p.relayUrl) [seedGood1, seedBad, seedGood3]
      = ["wss://r1", "wss://r3"] :=
  (bootstrap_partial_success (fun p => some p.relayUrl) [] seedGood1 seedBad seedGood3
      "wss://r1" "wss://r3").2.2 (by decide) (by decide) (by decide) rfl rfl

/-! ## Explicit-invalidation caches (C9) -/

/-- `aget` on the untouched keys of an appended map. -/
theorem aget_append_ne {α : Type} (m : List (String × α)) (k k' : String) (v : α)
    (hne : k' ≠ k) : aget (m ++ [(k, v)]) k' = aget m k' := by
  induction m with
  | nil =>
    have : ¬ k = k' := fun h => hne h.symm
    simp [aget, this]
  | cons p t ih =>
    by_cases hk : p.1 = k' <;> simp [aget, hk, ih]

/-- `aget` on the untouched keys of an in-place-replaced map. -/
theorem aget_replace_ne {α : Type} (m : List (String × α)) (k k' : String) (v : α)
    (hne : k' ≠ k) :
    aget (m.map (fun p => if p.1 = k then (k, v) else p)) k' = aget m k' := by
  induction m with
  | nil => rfl
  | cons p t ih =>
    by_cases hk : p.1 = k
    · have h1 : ¬ k = k' := fun h => hne h.symm
      have h2 : ¬ p.1 = k' := by rw [hk]; exact h1
      simp [aget, hk, h1, h2, ih]
    · by_cases hk' : p.1 = k' <;> simp [aget, hk, hk', hne, ih]

/-- `set` leaves every other key's value unchanged. -/
theorem aget_aset_ne {α : Type} (m : List (String × α)) (k k' : String) (v : α)
    (hne : k' ≠ k) : aget (aset m k v) k' = aget m k' := by
  unfold aset
  rcases h : aget m k with _ | ex
  · exact aget_append_ne m k k' v hne
  · exact aget_replace_ne m k k' v hne

/-- `extractFollowedPubkeys` from `src/src/events/parser.ts`. -/
def extractFollowedPubkeys (event : NostrEvent) : List String :=
  if event.kind ≠ FOLLOW_LIST_KIND then []
  else (event.tags.filter (fun t => t.head? == some "p")).map (fun t => t.getD 1 "")

/-- `SocialTrustManager.getFollows`, with the instance's
`followGraphCache` explicit and the relay response supplied as
`queryResult`: a cache hit returns the cached follow set and performs no
query; a miss resolves the latest follow-list event, extracts the
followed pubkeys (the TS wraps them in a `Set`; modelled as the list),
stores them and returns them — an empty query result caches the empty
set. -/
def getFollowsCached (cache : List (String × List String)) (pubkey : String)
    (queryResult : List NostrEvent) : List String × List (String × List String) :=
  match aget cache pubkey with
  | some cached => (cached, cache)
  | none =>
    match queryResult with
    | [] => ([], aset cache pubkey [])
    | e :: es =>
      let follows := extractFollowedPubkeys (resolveLatest e es)
      (follows, aset cache pubkey follows)

/-- `SpspParams` returned by the src SPSP client. -/
structure SpspParams where
  destinationAccount : String
  sharedSecret : String
  receiptsEnabled : Bool
deriving DecidableEq, Repr

/-- `NostrSpspClient.getStaticSpspParams` (src), with the instance's
`spspCache` explicit and the relay response supplied: a cache hit returns
the cached record's fields without querying; a miss resolves the latest
kind-10047 event and parses it — a parse failure (or empty result)
returns `none` and caches nothing, a success caches the record and
returns its fields. -/
def getStaticSpspParams (cache : List (String × SpspInfo)) (receiverPubkey : String)
    (queryResult : List NostrEvent) : Option SpspParams × List (String × SpspInfo) :=
  match aget cache receiverPubkey with
  | some cached =>
    (some { destinationAccount := cached.destinationAccount
            sharedSecret := cached.sharedSecret
            receiptsEnabled := cached.receiptsEnabled }, cache)
  | none =>
    match queryResult with
    | [] => (none, cache)
    | e :: es =>
      match parseSpspInfo (resolveLatest e es) with
      | none => (none, cache)
      | some spspInfo =>
        (some { destinationAccount := spspInfo.destinationAccount
                sharedSecret := spspInfo.sharedSecret
                receiptsEnabled := spspInfo.receiptsEnabled },
         aset cache receiverPubkey spspInfo)

/-- C9: the follow-graph and static payment-setup caches are only ever
extended by lookups and cleared only by the explicit `clearCache` calls:
a lookup on a cached key returns the previously cached value with the
cache unchanged, whatever newer records the relays would now return; no
lookup removes or overwrites any existing entry; and repeating a
follow-graph lookup always reproduces the first lookup's value regardless
of what the relays return in between.  (`computeTrust` results themselves
are recomputed on demand and never stored.) -/
theorem caches_explicit_invalidation_only
    (cacheF : List (String × List String)) (cacheS : List (String × SpspInfo))
    (k : String) (v : List String) (s : SpspInfo) (q q' : List NostrEvent) :
    (aget cacheF k = some v → getFollowsCached cacheF k q = (v, cacheF))
      ∧ (∀ k' v', aget cacheF k' = some v' →
          aget (getFollowsCached cacheF k q).2 k' = some v')
      ∧ (aget cacheS k = some s →
          getStaticSpspParams cacheS k q
            = (some { destinationAccount := s.destinationAccount
                      sharedSecret := s.sharedSecret
                      receiptsEnabled := s.receiptsEnabled }, cacheS))
      ∧ (∀ k' s', aget cacheS k' = some s' →
          aget (getStaticSpspParams cacheS k q).2 k' = some s')
      ∧ (getFollowsCached (getFollowsCached cacheF k q).2 k q').1
          = (getFollowsCached cacheF k q).1 := by
  refine ⟨?_, ?_, ?_, ?_, ?_⟩
  · intro h
    simp [getFollowsCached, h]
  · intro k' v' h'
    rcases h : aget cacheF k with _ | w
    · by_cases hk : k' = k
      · rw [hk] at h'
        rw [h] at h'
        exact Option.noConfusion h'
      · rcases q with _ | ⟨e, es⟩ <;>
          simp [getFollowsCached, h, aget_aset_ne _ _ _ _ hk, h']
    · simp [getFollowsCached, h, h']
  · intro h
    simp [getStaticSpspParams, h]
  · intro k' s' h'
    rcases h : aget cacheS k with _ | w
    · by_cases hk : k' = k
      · rw [hk] at h'
        rw [h] at h'
        exact Option.noConfusion h'
      · rcases q with _ | ⟨e, es⟩
        · simp [getStaticSpspParams, h, h']
        · rcases hp : parseSpspInfo (resolveLatest e es) with _ | info <;>
            simp [getStaticSpspParams, h, hp, aget_aset_ne _ _ _ _ hk, h']
    · simp [getStaticSpspParams, h, h']
  · rcases h : aget cacheF k with _ | w
    · rcases q with _ | ⟨e, es⟩ <;>
        simp [getFollowsCached, h, aget_aset_self]
    · simp [getFollowsCached, h]

/-- A follow-list event for the C9 witness: author "a" now follows "z". -/
def newFollowEv : NostrEvent :=
  { pubkey := "a", kind := 3, created_at := 99, tags := [["p", "z"]], content := "" }

/-- C9 witness: with ["x"] cached for "a", a lookup that would now see the
newer follow list still returns ["x"] and leaves the cache unchanged. -/
theorem caches_explicit_invalidation_only_witness :
    getFollowsCached [("a", ["x"])] "a" [newFollowEv] = (["x"], [("a", ["x"])]) :=
  (caches_explicit_invalidation_only [("a", ["x"])] [] "a" ["x"]
      { pubkey := "", destinationAccount := "", sharedSecret := "",
        receiptsEnabled := false, createdAt := 0 }
      [newFollowEv] []).1 (by decide)

end AgentSociety
